import Mathlib

/-!
# Verified model of the welabeldata-tool client-side storage layer

A shallow embedding of the layered localStorage subsystem:

* `CompressionService` — marker-tagged, threshold-gated string compression
  (src/services/CompressionService.ts);
* the generic typed record store `Store` — versioned envelope, validation
  hook, optional compression (src/services/storage/StorageModule.ts);
* `WorkflowStorage` — workflow collection with per-step image compression and
  the legacy-format migration (src/services/storage/WorkflowStorage.ts,
  src/lib/storageService.ts);
* `AnnotationStorage` statistics and `PreferencesStorage` recent-workflow
  bookkeeping.

JavaScript strings are embedded as `List Char`; localStorage as a partial map
from key strings to stored strings; `Date.now()` as an explicit `now : Nat`
parameter threaded through every operation that stamps a timestamp.  The two
host primitives that are not part of the repository — the lz-string codec and
JSON serialization — are modelled from the specification as executable
lossless encodings (see `lzCompressToUTF16` and the `enc…`/`dec…` family).
-/

/-- A JavaScript string, embedded as its list of UTF-16 code points. -/
abbrev JSStr := List Char

/-- `COMPRESSION_MARKER` — the fixed prefix identifying a compressed string. -/
def COMPRESSION_MARKER : JSStr :=
  ['_', '_', 'C', 'O', 'M', 'P', 'R', 'E', 'S', 'S', 'E', 'D', '_', '_', ':']

/-- `DEFAULT_COMPRESSION_THRESHOLD` — 10 KiB. -/
def DEFAULT_COMPRESSION_THRESHOLD : Nat := 10 * 1024

/-- Modelled from the spec: `LZString.compressToUTF16`, the external lossless
text compressor (the repository imports it from the `lz-string` package; its
code is not part of this repository).  The spec requires only that it is a
general-purpose lossless transform; like the real library, the model produces a
nonempty output even for empty input (the library appends a space character). -/
def lzCompressToUTF16 (s : JSStr) : JSStr := s ++ [' ']

/-- Modelled from the spec: `LZString.decompressFromUTF16`, the inverse of
`lzCompressToUTF16`.  `none` models the library returning `null` on input that
is not a valid compressor output (in particular on the empty string, as the
real library does). -/
def lzDecompressFromUTF16 (s : JSStr) : Option JSStr :=
  if s = [] then none
  else if s.getLast? = some ' ' then some s.dropLast
  else none

namespace CompressionService

/-- `CompressionService.compress`: compress and prepend the marker.  (The
source wraps the library call in try/catch and falls back to the input; the
modelled compressor is total, so the catch branch is unreachable.) -/
def compress (data : JSStr) : JSStr :=
  COMPRESSION_MARKER ++ lzCompressToUTF16 data

/-- `CompressionService.isCompressed`: true iff the string starts with the
compression marker. -/
def isCompressed (data : JSStr) : Bool :=
  COMPRESSION_MARKER.isPrefixOf data

/-- `CompressionService.decompress`: if the marker is absent return the input;
otherwise strip the marker and decompress.  The source returns
`LZString.decompressFromUTF16(compressedData) || data`, so both a `null`
result and an empty-string result fall back to the original (still-marked)
input. -/
def decompress (data : JSStr) : JSStr :=
  if isCompressed data then
    match lzDecompressFromUTF16 (data.drop COMPRESSION_MARKER.length) with
    | some r => if r = [] then data else r
    | none => data
  else data

/-- `CompressionService.autoCompress`: compress only when the estimated size
(two bytes per character) reaches the instance threshold. -/
def autoCompress (threshold : Nat) (data : JSStr) : JSStr :=
  if threshold ≤ data.length * 2 then compress data else data

/-- `CompressionService.autoDecompress`: decompress iff the marker is
present. -/
def autoDecompress (data : JSStr) : JSStr :=
  if isCompressed data then decompress data else data

end CompressionService

/-!
## Modelled JSON serialization

`JSON.stringify` / `JSON.parse` are browser primitives, not repository code.
Modelled from the spec: "Each StoredRecord is JSON-serialized, then optionally
run through the Compression Codec; the on-the-wire string is therefore either
raw JSON or `__COMPRESSED__:` + compressedJSON".  The encoders below are an
executable lossless serialization of the stored shapes into characters, with
prefix-consuming decoders; like real JSON text, an encoded object starts with
the character `on-brace` and an encoded array with a square bracket, so a
serialized value never starts with the compression marker.
-/

/-- The character standing for a digit, as in JSON number text. -/
def digitChar (d : Nat) : Char := Char.ofNat (48 + d)

/-- Base-10 digits of `n`, little-endian, computed with structural fuel. -/
def natDigits : Nat → Nat → List Nat
  | 0, _ => []
  | _ + 1, 0 => []
  | fuel + 1, Nat.succ n => (Nat.succ n % 10) :: natDigits fuel (Nat.succ n / 10)

/-- Value of a little-endian base-10 digit list. -/
def ofDigits10 (ds : List Nat) : Nat := ds.foldr (fun d acc => d + 10 * acc) 0

/-- Serialize a natural number (JSON number text, terminated). -/
def encNat (n : Nat) : JSStr :=
  (if n = 0 then ['0'] else (natDigits n n).map digitChar) ++ [';']

/-- Consume a run of digits off the front of a string. -/
def decDigits : JSStr → List Nat × JSStr
  | [] => ([], [])
  | c :: r =>
    if c.isDigit then
      let p := decDigits r
      ((c.toNat - 48) :: p.1, p.2)
    else ([], c :: r)

/-- Parse a serialized natural number off the front of a string. -/
def decNat (s : JSStr) : Option (Nat × JSStr) :=
  let p := decDigits s
  if p.1 = [] then none
  else
    match p.2 with
    | ';' :: r => some (ofDigits10 p.1, r)
    | _ => none

/-- Serialize a string value (length-prefixed, as a lossless stand-in for JSON
string quoting and escaping). -/
def encStr (s : JSStr) : JSStr := '"' :: encNat s.length ++ s

/-- Parse a serialized string value. -/
def decStr : JSStr → Option (JSStr × JSStr)
  | '"' :: r =>
    match decNat r with
    | some (n, r1) => if n ≤ r1.length then some (r1.take n, r1.drop n) else none
    | none => none
  | _ => none

/-- Serialize a boolean. -/
def encBool (b : Bool) : JSStr := [if b then 't' else 'f']

/-- Parse a serialized boolean. -/
def decBool : JSStr → Option (Bool × JSStr)
  | 't' :: r => some (true, r)
  | 'f' :: r => some (false, r)
  | _ => none

/-- Serialize an optional field (an absent field is serialized as absence,
mirroring `JSON.stringify` dropping `undefined` properties). -/
def encOpt (enc : α → JSStr) : Option α → JSStr
  | none => ['n']
  | some a => 's' :: enc a

/-- Parse an optional field. -/
def decOpt (dec : JSStr → Option (α × JSStr)) : JSStr → Option (Option α × JSStr)
  | 'n' :: r => some (none, r)
  | 's' :: r =>
    match dec r with
    | some (a, r1) => some (some a, r1)
    | none => none
  | _ => none

/-- Serialize the elements of a JSON array, comma-separated and terminated. -/
def encListAux (enc : α → JSStr) : List α → JSStr
  | [] => [']']
  | a :: as => ',' :: enc a ++ encListAux enc as

/-- Serialize a JSON array. -/
def encList (enc : α → JSStr) (l : List α) : JSStr := '[' :: encListAux enc l

/-- Parse the elements of a JSON array; `fuel` bounds the element count. -/
def decListAux (dec : JSStr → Option (α × JSStr)) : Nat → JSStr → Option (List α × JSStr)
  | _, ']' :: r => some ([], r)
  | fuel + 1, ',' :: r =>
    match dec r with
    | some (a, r1) =>
      match decListAux dec fuel r1 with
      | some (as, r2) => some (a :: as, r2)
      | none => none
    | none => none
  | _, _ => none

/-- Parse a JSON array. -/
def decList (dec : JSStr → Option (α × JSStr)) : JSStr → Option (List α × JSStr)
  | '[' :: r => decListAux dec r.length r
  | _ => none

/-- Serialize a key/value pair (a JSON object entry). -/
def encPair (encA : α → JSStr) (encB : β → JSStr) (p : α × β) : JSStr :=
  encA p.1 ++ encB p.2

/-- Parse a key/value pair. -/
def decPair (decA : JSStr → Option (α × JSStr)) (decB : JSStr → Option (β × JSStr))
    (s : JSStr) : Option ((α × β) × JSStr) :=
  match decA s with
  | some (a, r1) =>
    match decB r1 with
    | some (b, r2) => some ((a, b), r2)
    | none => none
  | none => none

/-!
## Domain data model (src/services/storage/WorkflowStorage.ts)
-/

/-- `WorkflowStep` — one recorded interaction step.  Optional TypeScript fields
are embedded as `Option`. -/
structure WorkflowStep where
  id : JSStr
  title : JSStr
  description : Option JSStr := none
  imageData : Option JSStr := none
  purpose : Option JSStr := none
  expectedOutcome : Option JSStr := none
  prerequisiteSteps : Option (List JSStr) := none
  dependentSteps : Option (List JSStr) := none
  category : Option JSStr := none
  createdAt : Nat
  updatedAt : Nat
deriving DecidableEq

/-- `Workflow` — a titled sequence of steps, identified by `id`. -/
structure Workflow where
  id : JSStr
  title : JSStr
  steps : List WorkflowStep
  createdAt : Nat
  updatedAt : Nat
deriving DecidableEq

/-- Serialize a `WorkflowStep` (field order as declared). -/
def encStep (st : WorkflowStep) : JSStr :=
  '{' :: (encStr st.id ++ encStr st.title ++ encOpt encStr st.description ++
    encOpt encStr st.imageData ++ encOpt encStr st.purpose ++
    encOpt encStr st.expectedOutcome ++ encOpt (encList encStr) st.prerequisiteSteps ++
    encOpt (encList encStr) st.dependentSteps ++ encOpt encStr st.category ++
    encNat st.createdAt ++ encNat st.updatedAt)

/-- Parse a serialized `WorkflowStep`. -/
def decStep : JSStr → Option (WorkflowStep × JSStr)
  | '{' :: r => do
    let (id, r) ← decStr r
    let (title, r) ← decStr r
    let (description, r) ← decOpt decStr r
    let (imageData, r) ← decOpt decStr r
    let (purpose, r) ← decOpt decStr r
    let (expectedOutcome, r) ← decOpt decStr r
    let (prerequisiteSteps, r) ← decOpt (decList decStr) r
    let (dependentSteps, r) ← decOpt (decList decStr) r
    let (category, r) ← decOpt decStr r
    let (createdAt, r) ← decNat r
    let (updatedAt, r) ← decNat r
    some (⟨id, title, description, imageData, purpose, expectedOutcome,
      prerequisiteSteps, dependentSteps, category, createdAt, updatedAt⟩, r)
  | _ => none

/-- Serialize a `Workflow`. -/
def encWorkflow (w : Workflow) : JSStr :=
  '{' :: (encStr w.id ++ encStr w.title ++ encList encStep w.steps ++
    encNat w.createdAt ++ encNat w.updatedAt)

/-- Parse a serialized `Workflow`. -/
def decWorkflow : JSStr → Option (Workflow × JSStr)
  | '{' :: r => do
    let (id, r) ← decStr r
    let (title, r) ← decStr r
    let (steps, r) ← decList decStep r
    let (createdAt, r) ← decNat r
    let (updatedAt, r) ← decNat r
    some (⟨id, title, steps, createdAt, updatedAt⟩, r)
  | _ => none

/-!
## The typed record store (src/services/storage/StorageModule.ts)
-/

/-- The browser's localStorage: a partial map from key strings to stored
strings.  The write primitive is modelled as always succeeding; the
quota-exceeded failure of the host environment is outside this model. -/
def LocalStorage := String → Option JSStr

/-- The empty localStorage. -/
def emptyStorage : LocalStorage := fun _ => none

/-- `localStorage.setItem`. -/
def setItem (σ : LocalStorage) (key : String) (value : JSStr) : LocalStorage :=
  fun k => if k = key then some value else σ k

/-- `StoredData<T>` — the versioned envelope persisted under one key. -/
structure StoredData (α : Type) where
  version : Nat
  updatedAt : Nat
  data : α
deriving DecidableEq

/-- Serialize an envelope (the `JSON.stringify(wrappedData)` of the source). -/
def encStored (enc : α → JSStr) (version updatedAt : Nat) (d : α) : JSStr :=
  '{' :: (encNat version ++ encNat updatedAt ++ enc d ++ ['}'])

/-- Parse a serialized envelope. -/
def decStored (dec : JSStr → Option (α × JSStr)) : JSStr → Option (StoredData α × JSStr)
  | '{' :: r => do
    let (version, r) ← decNat r
    let (updatedAt, r) ← decNat r
    let (d, r) ← dec r
    match r with
    | '}' :: r1 => some (⟨version, updatedAt, d⟩, r1)
    | _ => none
  | _ => none

/-- A `StorageModule<T>` instance: composed storage key, schema version,
compression policy, the overridable validation hook, and the serialization of
the payload type. -/
structure Store (α : Type) where
  storageKey : String
  version : Nat
  compressionThreshold : Nat
  useCompression : Bool
  validateData : α → Bool
  enc : α → JSStr
  dec : JSStr → Option (α × JSStr)

/-- `StorageModule.get`: read the raw string (an empty or absent string reads
as `null`), auto-decompress, parse the envelope, and unwrap.  The version
migration hook of `unwrapData` only logs, so unwrapping returns the payload
unconditionally; any parse failure yields `null`. -/
def Store.get (st : Store α) (σ : LocalStorage) : Option α :=
  match σ st.storageKey with
  | none => none
  | some rawData =>
    if rawData = [] then none
    else
      match decStored st.dec (CompressionService.autoDecompress rawData) with
      | some (storedData, []) => some storedData.data
      | _ => none

/-- `StorageModule.set`: validate, wrap in a fresh envelope stamped `now`,
serialize, optionally auto-compress, and write.  Returns `false` without
touching storage when validation fails. -/
def Store.set (st : Store α) (now : Nat) (data : α) (σ : LocalStorage) :
    Bool × LocalStorage :=
  if st.validateData data then
    let serializedData := encStored st.enc st.version now data
    let finalData :=
      if st.useCompression then
        CompressionService.autoCompress st.compressionThreshold serializedData
      else serializedData
    (true, setItem σ st.storageKey finalData)
  else (false, σ)

/-!
## WorkflowStorage (src/services/storage/WorkflowStorage.ts)
-/

/-- `IMAGE_COMPRESSION_THRESHOLD` — 100 KiB, the higher threshold of the
image-specific compression service. -/
def IMAGE_COMPRESSION_THRESHOLD : Nat := 100 * 1024

/-- `WorkflowStorage.validateData` checks `Array.isArray` and per-workflow
runtime types (string `id`/`title`, array `steps`, numeric timestamps); every
check holds by construction in the typed embedding. -/
def validateWorkflows (workflows : List Workflow) : Bool :=
  workflows.all fun _ => true

/-- The `WorkflowStorage` instance: key `wld_workflows` (namespace `wld`, key
`workflows`), schema version 1, default compression threshold, compression
enabled. -/
def workflowStore : Store (List Workflow) :=
  ⟨"wld_workflows", 1, DEFAULT_COMPRESSION_THRESHOLD, true, validateWorkflows,
    encList encWorkflow, decList decWorkflow⟩

/-- `WorkflowStorage.processStepImages`: compress or decompress each step's
`imageData` through the image-specific compression service; steps without
image data pass through unchanged. -/
def processStepImages (steps : List WorkflowStep) (compressImages : Bool) :
    List WorkflowStep :=
  steps.map fun step =>
    match step.imageData with
    | none => step
    | some img =>
      { step with
        imageData := some
          (if compressImages then
            CompressionService.autoCompress IMAGE_COMPRESSION_THRESHOLD img
          else
            CompressionService.autoDecompress img) }

/-- `WorkflowStorage.getWorkflows`: read the collection (empty when absent)
and decompress every step's image data. -/
def getWorkflows (σ : LocalStorage) : List Workflow :=
  match workflowStore.get σ with
  | none => []
  | some workflows =>
    workflows.map fun w => { w with steps := processStepImages w.steps false }

/-- The raw stored collection, before image decompression (the collection as
it sits in the envelope). -/
def storedWorkflows (σ : LocalStorage) : List Workflow :=
  (workflowStore.get σ).getD []

/-- `WorkflowStorage.getWorkflowById`: linear search of `getWorkflows`. -/
def getWorkflowById (id : JSStr) (σ : LocalStorage) : Option Workflow :=
  (getWorkflows σ).find? fun w => w.id == id

/-- `WorkflowStorage.saveWorkflow`: look up the decompressed collection by id;
replace in place (stamping `updatedAt`) or append (stamping both timestamps);
the saved workflow's own steps are image-compressed before the write. -/
def saveWorkflow (now : Nat) (workflow : Workflow) (σ : LocalStorage) :
    Bool × LocalStorage :=
  let workflows := getWorkflows σ
  let withCompressed : Workflow :=
    { workflow with steps := processStepImages workflow.steps true }
  match workflows.findIdx? (fun w => w.id == workflow.id) with
  | some index =>
    workflowStore.set now (workflows.set index { withCompressed with updatedAt := now }) σ
  | none =>
    workflowStore.set now
      (workflows ++ [{ withCompressed with createdAt := now, updatedAt := now }]) σ

/-- `WorkflowStorage.deleteWorkflow`: filter out the matching id; write back
only if the collection shrank, otherwise return `false`. -/
def deleteWorkflow (now : Nat) (id : JSStr) (σ : LocalStorage) : Bool × LocalStorage :=
  let workflows := getWorkflows σ
  let newWorkflows := workflows.filter fun w => w.id != id
  if newWorkflows.length < workflows.length then
    workflowStore.set now newWorkflows σ
  else (false, σ)

/-!
## Legacy flat format (src/lib/storageService.ts) and migration
-/

/-- `STORAGE_KEYS.WORKFLOWS` of the legacy service — the same string the new
`WorkflowStorage` composes for its own slot. -/
def LEGACY_WORKFLOWS_KEY : String := "wld_workflows"

/-- The legacy `getWorkflows` (`src/lib/storageService.ts`): raw
`JSON.parse` of the flat key, with `[]` for an absent/empty value or a parse
error.  `some ws` means the call produced the JavaScript array `ws`; `none`
means it produced a non-array JSON value (a stored envelope), on which the
migration's `Array.isArray` test fails. -/
def getOldWorkflows (σ : LocalStorage) : Option (List Workflow) :=
  match σ LEGACY_WORKFLOWS_KEY with
  | none => some []
  | some data =>
    if data = [] then some []
    else
      match decList decWorkflow data with
      | some (ws, []) => some ws
      | _ =>
        match decStored (decList decWorkflow) data with
        | some (_, []) => none
        | _ => some []

/-- `WorkflowStorage.migrateFromOldFormat`: read the legacy collection; bail
out with `false` when it is missing, not an array, or empty; otherwise map the
legacy records 1:1 (the identity in the typed embedding), compress step
images, and persist through the store's `set`. -/
def migrateFromOldFormat (now : Nat) (σ : LocalStorage) : Bool × LocalStorage :=
  match getOldWorkflows σ with
  | none => (false, σ)
  | some [] => (false, σ)
  | some oldWorkflows =>
    let withCompressedImages := oldWorkflows.map fun w =>
      { w with steps := processStepImages w.steps true }
    workflowStore.set now withCompressedImages σ

/-!
## AnnotationStorage (src/services/storage/StorageModule.ts, annotation part)
-/

/-- The persisted annotation value: workflow id → step id → step annotation.
JavaScript objects are embedded as insertion-ordered association lists, so
`Object.values` is `map Prod.snd`. -/
abbrev AnnotationMap := List (JSStr × List (JSStr × WorkflowStep))

/-- `AnnotationStats` — the result of `getAnnotationStats`.  `completeness` is
a percentage computed by JavaScript number division, embedded as `ℚ`. -/
structure AnnotationStats where
  total : Nat
  withPurpose : Nat
  withOutcome : Nat
  withCategory : Nat
  withRelationships : Nat
  completeness : ℚ
deriving DecidableEq

/-- The `AnnotationStorage` instance: key `wld_annotations`, version 1,
default threshold, compression on.  Its `validateData` checks object shape
and per-step string `id`/`title`, all guaranteed by the typed embedding. -/
def annotationStore : Store AnnotationMap :=
  ⟨"wld_annotations", 1, DEFAULT_COMPRESSION_THRESHOLD, true, fun _ => true,
    encList (encPair encStr (encList (encPair encStr encStep))),
    decList (decPair decStr (decList (decPair decStr decStep)))⟩

/-- `AnnotationStorage.getWorkflowAnnotations`: look the workflow id up in
`get() || an empty object`; `m || null` keeps any object, even an empty one,
and turns only an absent entry into `null`. -/
def getWorkflowAnnotations (workflowId : JSStr) (σ : LocalStorage) :
    Option (List (JSStr × WorkflowStep)) :=
  ((annotationStore.get σ).getD []).lookup workflowId

/-- JavaScript truthiness of an optional string field (`!!field`): absent and
empty strings are falsy. -/
def truthyStr : Option JSStr → Bool
  | none => false
  | some s => !s.isEmpty

/-- The relationship indicator of `getAnnotationStats`:
`(step.prerequisiteSteps && step.prerequisiteSteps.length > 0) ||
(step.dependentSteps && step.dependentSteps.length > 0)`. -/
def hasRelationships (st : WorkflowStep) : Bool :=
  (match st.prerequisiteSteps with
   | some l => decide (0 < l.length)
   | none => false) ||
  (match st.dependentSteps with
   | some l => decide (0 < l.length)
   | none => false)

/-- `AnnotationStorage.getAnnotationStats`: per-step indicator counts over
`Object.values` of the workflow's annotation map, and
`completeness = filledFields / maxFields * 100` with `maxFields = total * 4`;
all-zero when the workflow is missing or has no annotated steps. -/
def getAnnotationStats (workflowId : JSStr) (σ : LocalStorage) : AnnotationStats :=
  match getWorkflowAnnotations workflowId σ with
  | none => ⟨0, 0, 0, 0, 0, 0⟩
  | some workflowAnnotations =>
    let steps := workflowAnnotations.map Prod.snd
    let total := steps.length
    if total = 0 then ⟨0, 0, 0, 0, 0, 0⟩
    else
      let withPurpose := (steps.filter fun st => truthyStr st.purpose).length
      let withOutcome := (steps.filter fun st => truthyStr st.expectedOutcome).length
      let withCategory := (steps.filter fun st => truthyStr st.category).length
      let withRelationships := (steps.filter hasRelationships).length
      let maxFields := total * 4
      let filledFields := withPurpose + withOutcome + withCategory + withRelationships
      ⟨total, withPurpose, withOutcome, withCategory, withRelationships,
        (filledFields : ℚ) / (maxFields : ℚ) * 100⟩

/-!
## PreferencesStorage
-/

/-- Theme preferences. -/
structure ThemePreferences where
  darkMode : Bool
  colorScheme : JSStr
  fontSize : JSStr
deriving DecidableEq

/-- Editor preferences. -/
structure EditorPreferences where
  autoSave : Bool
  autoSaveInterval : Nat
  showLineNumbers : Bool
  defaultCategory : JSStr
deriving DecidableEq

/-- Export preferences (the source field `export` is a reserved word here, so
the field is named `exportPrefs`). -/
structure ExportPreferences where
  format : JSStr
  includeScreenshots : Bool
  includeMetadata : Bool
  namingTemplate : JSStr
  exportDirectory : JSStr
deriving DecidableEq

/-- `AppPreferences` — the preferences singleton. -/
structure AppPreferences where
  theme : ThemePreferences
  editor : EditorPreferences
  exportPrefs : ExportPreferences
  lastUsedModel : JSStr
  recentWorkflows : List JSStr
  lastUpdated : Nat
deriving DecidableEq

/-- `DEFAULT_PREFERENCES`.  In the source `lastUpdated` is the module-load
`Date.now()`; the concrete value plays no role in the verified properties and
is fixed to 0 here. -/
def DEFAULT_PREFERENCES : AppPreferences :=
  { theme := { darkMode := false,
               colorScheme := ['d', 'e', 'f', 'a', 'u', 'l', 't'],
               fontSize := ['m', 'e', 'd', 'i', 'u', 'm'] },
    editor := { autoSave := true, autoSaveInterval := 30000,
                showLineNumbers := true,
                defaultCategory := ['i', 'n', 'p', 'u', 't'] },
    exportPrefs := { format := ['j', 's', 'o', 'n'],
                     includeScreenshots := true, includeMetadata := true,
                     namingTemplate := ['t', 'd'],
                     exportDirectory := ['e', 'x', 'p', 'o', 'r', 't', 's'] },
    lastUsedModel := ['g', 'p', 't', '-', '4', 'o'],
    recentWorkflows := [],
    lastUpdated := 0 }

/-- Serialize a theme sub-record. -/
def encTheme (t : ThemePreferences) : JSStr :=
  encBool t.darkMode ++ encStr t.colorScheme ++ encStr t.fontSize

/-- Parse a theme sub-record. -/
def decTheme (s : JSStr) : Option (ThemePreferences × JSStr) := do
  let (darkMode, r) ← decBool s
  let (colorScheme, r) ← decStr r
  let (fontSize, r) ← decStr r
  some (⟨darkMode, colorScheme, fontSize⟩, r)

/-- Serialize an editor sub-record. -/
def encEditor (e : EditorPreferences) : JSStr :=
  encBool e.autoSave ++ encNat e.autoSaveInterval ++ encBool e.showLineNumbers ++
    encStr e.defaultCategory

/-- Parse an editor sub-record. -/
def decEditor (s : JSStr) : Option (EditorPreferences × JSStr) := do
  let (autoSave, r) ← decBool s
  let (autoSaveInterval, r) ← decNat r
  let (showLineNumbers, r) ← decBool r
  let (defaultCategory, r) ← decStr r
  some (⟨autoSave, autoSaveInterval, showLineNumbers, defaultCategory⟩, r)

/-- Serialize an export sub-record. -/
def encExportPrefs (e : ExportPreferences) : JSStr :=
  encStr e.format ++ encBool e.includeScreenshots ++ encBool e.includeMetadata ++
    encStr e.namingTemplate ++ encStr e.exportDirectory

/-- Parse an export sub-record. -/
def decExportPrefs (s : JSStr) : Option (ExportPreferences × JSStr) := do
  let (format, r) ← decStr s
  let (includeScreenshots, r) ← decBool r
  let (includeMetadata, r) ← decBool r
  let (namingTemplate, r) ← decStr r
  let (exportDirectory, r) ← decStr r
  some (⟨format, includeScreenshots, includeMetadata, namingTemplate, exportDirectory⟩, r)

/-- Serialize the preferences record. -/
def encPreferences (p : AppPreferences) : JSStr :=
  '{' :: (encTheme p.theme ++ encEditor p.editor ++ encExportPrefs p.exportPrefs ++
    encStr p.lastUsedModel ++ encList encStr p.recentWorkflows ++ encNat p.lastUpdated)

/-- Parse a serialized preferences record. -/
def decPreferences : JSStr → Option (AppPreferences × JSStr)
  | '{' :: r => do
    let (theme, r) ← decTheme r
    let (editor, r) ← decEditor r
    let (exportPrefs, r) ← decExportPrefs r
    let (lastUsedModel, r) ← decStr r
    let (recentWorkflows, r) ← decList decStr r
    let (lastUpdated, r) ← decNat r
    some (⟨theme, editor, exportPrefs, lastUsedModel, recentWorkflows, lastUpdated⟩, r)
  | _ => none

/-- The `PreferencesStorage` instance: key `wld_preferences`, version 1,
default threshold, compression on.  Its `validateData` requires the three
sub-objects and a numeric `lastUpdated`, all guaranteed by the typing. -/
def preferencesStore : Store AppPreferences :=
  ⟨"wld_preferences", 1, DEFAULT_COMPRESSION_THRESHOLD, true, fun _ => true,
    encPreferences, decPreferences⟩

/-- `PreferencesStorage.getPreferences`: the stored record merged field-wise
over the defaults.  In the typed embedding a stored record is complete, so
the sub-object spreads keep the stored sub-objects; the `||` defaults apply
to the scalars: an empty `lastUsedModel` and a zero `lastUpdated` are falsy,
while a stored `recentWorkflows` array is always truthy. -/
def getPreferences (now : Nat) (σ : LocalStorage) : AppPreferences :=
  match preferencesStore.get σ with
  | none => DEFAULT_PREFERENCES
  | some savedPreferences =>
    { theme := savedPreferences.theme
      editor := savedPreferences.editor
      exportPrefs := savedPreferences.exportPrefs
      lastUsedModel :=
        if savedPreferences.lastUsedModel.isEmpty then DEFAULT_PREFERENCES.lastUsedModel
        else savedPreferences.lastUsedModel
      recentWorkflows := savedPreferences.recentWorkflows
      lastUpdated :=
        if savedPreferences.lastUpdated = 0 then now else savedPreferences.lastUpdated }

/-- `PreferencesStorage.addRecentWorkflow`: drop existing occurrences of the
id, prepend it, cut the list to the 10 most recent, stamp `lastUpdated`, and
persist. -/
def addRecentWorkflow (now : Nat) (workflowId : JSStr) (σ : LocalStorage) :
    Bool × LocalStorage :=
  let currentPrefs := getPreferences now σ
  let recent0 := currentPrefs.recentWorkflows
  let recent1 := recent0.filter fun id => id != workflowId
  let recent2 := workflowId :: recent1
  let recent3 := if recent2.length > 10 then recent2.take 10 else recent2
  preferencesStore.set now
    { currentPrefs with recentWorkflows := recent3, lastUpdated := now } σ

/-!
## Concrete instances used to exercise the model
-/

/-- The base `StorageModule.validateData` hook: reject `null`/`undefined`
(embedded as `none`), accept everything else. -/
def baseValidateData {α : Type} : Option α → Bool := Option.isSome

/-- A `new StorageModule<string[]>('test_array')` as built by the repository's
own storage test, with the base validation hook and a nullable payload. -/
def testArrayStore : Store (Option (List JSStr)) :=
  ⟨"wld_test_array", 1, DEFAULT_COMPRESSION_THRESHOLD, true, baseValidateData,
    encOpt (encList encStr), decOpt (decList decStr)⟩

/-- The workflow store after `setCompressionThreshold(0)`: every write is
compressed, exercising the compressed-envelope read path. -/
def tinyThresholdStore : Store (List Workflow) :=
  { workflowStore with compressionThreshold := 0 }

/-- A small sample workflow. -/
def sampleWorkflow : Workflow :=
  { id := ['w', '1'],
    title := ['T', 'e', 's', 't'],
    steps := [{ id := ['s', '1'], title := ['S', '1'], createdAt := 1, updatedAt := 2 }],
    createdAt := 3, updatedAt := 4 }

/-- A workflow whose single step carries an `imageData` equal to the bare
compression marker: a marked string whose decompression fails (the real
library returns `null` on an empty compressed payload). -/
def markedImageWorkflow : Workflow :=
  { id := ['m'], title := ['M'],
    steps := [{ id := ['s'], title := ['S'], imageData := some COMPRESSION_MARKER,
                createdAt := 0, updatedAt := 0 }],
    createdAt := 0, updatedAt := 0 }

/-- A fresh workflow with a distinct id, used as the argument of a save. -/
def otherWorkflow : Workflow :=
  { id := ['b'], title := ['B'], steps := [], createdAt := 0, updatedAt := 0 }

/-- The write-side image transform `saveWorkflow` applies to the saved
workflow's own steps. -/
def compressWorkflow (w : Workflow) : Workflow :=
  { w with steps := processStepImages w.steps true }

/-- The read-side image transform `getWorkflows` applies to every stored
workflow. -/
def decompressWorkflow (w : Workflow) : Workflow :=
  { w with steps := processStepImages w.steps false }

/-- A storage state holding exactly `sampleWorkflow`. -/
def wfStateOne : LocalStorage := (workflowStore.set 3 [sampleWorkflow] emptyStorage).2

/-- `sampleWorkflow` with an edited title, to exercise the update path. -/
def sampleWorkflowV2 : Workflow := { sampleWorkflow with title := ['T', '2'] }

/-- A storage state holding exactly `markedImageWorkflow`. -/
def markedState : LocalStorage :=
  (workflowStore.set 0 [markedImageWorkflow] emptyStorage).2

/-- A four-step annotation map for one workflow: two steps with a purpose,
none with an outcome, one with a category, one with a prerequisite — the
statistics scenario of the specification. -/
def annotationSample : List (JSStr × WorkflowStep) :=
  [(['s', '1'], { id := ['s', '1'], title := ['A'], purpose := some ['p'],
                  createdAt := 0, updatedAt := 0 }),
   (['s', '2'], { id := ['s', '2'], title := ['B'], purpose := some ['q'],
                  category := some ['i'], createdAt := 0, updatedAt := 0 }),
   (['s', '3'], { id := ['s', '3'], title := ['C'],
                  prerequisiteSteps := some [['s', '1']], createdAt := 0,
                  updatedAt := 0 }),
   (['s', '4'], { id := ['s', '4'], title := ['D'], createdAt := 0,
                  updatedAt := 0 })]

/-- A storage state holding `annotationSample` under workflow id `w1`. -/
def annotationState : LocalStorage :=
  (annotationStore.set 0 [(['w', '1'], annotationSample)] emptyStorage).2

/-- A preferences state whose recent list already holds two ids. -/
def prefsState : LocalStorage :=
  (preferencesStore.set 2
    { DEFAULT_PREFERENCES with recentWorkflows := [['a'], ['b']] } emptyStorage).2

/-!
## Theorems: compression codec
-/

namespace CompressionService

theorem isPrefixOf_append (l r : List Char) : l.isPrefixOf (l ++ r) = true := by
  induction l with
  | nil => simp [List.isPrefixOf]
  | cons a as ih => simp [List.isPrefixOf, ih]

theorem isCompressed_compress (s : JSStr) : isCompressed (compress s) = true := by
  simp [isCompressed, compress, isPrefixOf_append]

theorem isCompressed_cons (c : Char) (t : JSStr) (h : c ≠ '_') :
    isCompressed (c :: t) = false := by
  simp only [isCompressed, COMPRESSION_MARKER, List.isPrefixOf]
  simp [Ne.symm h]

/-- The modelled lz codec is lossless. -/
theorem lzDecompress_lzCompress (s : JSStr) :
    lzDecompressFromUTF16 (lzCompressToUTF16 s) = some s := by
  simp [lzCompressToUTF16, lzDecompressFromUTF16]

/-- Decompression inverts compression on every nonempty string. -/
theorem decompress_compress (s : JSStr) (h : s ≠ []) :
    decompress (compress s) = s := by
  have hdrop : (compress s).drop COMPRESSION_MARKER.length = lzCompressToUTF16 s := by
    simp [compress, List.drop_left]
  simp [decompress, isCompressed_compress, hdrop, lzDecompress_lzCompress, h]

theorem decompress_not_compressed (s : JSStr) (h : isCompressed s = false) :
    decompress s = s := by
  simp [decompress, h]

theorem autoDecompress_not_compressed (s : JSStr) (h : isCompressed s = false) :
    autoDecompress s = s := by
  simp [autoDecompress, h]

/-- Reading back a threshold-gated write returns the original string, for any
unmarked nonempty input. -/
theorem autoDecompress_autoCompress (threshold : Nat) (s : JSStr)
    (hm : isCompressed s = false) (hne : s ≠ []) :
    autoDecompress (autoCompress threshold s) = s := by
  unfold autoCompress
  by_cases hth : threshold ≤ s.length * 2
  · simp only [hth, if_true]
    simp [autoDecompress, isCompressed_compress, decompress_compress s hne]
  · simp only [hth, if_false]
    exact autoDecompress_not_compressed s hm

end CompressionService

/-!
## Theorems: serialization round-trips
-/

theorem digitChar_isDigit : ∀ d, d < 10 → (digitChar d).isDigit = true := by decide

theorem digitChar_toNat : ∀ d, d < 10 → (digitChar d).toNat - 48 = d := by decide

theorem natDigits_lt_ten : ∀ fuel n d, d ∈ natDigits fuel n → d < 10 := by
  intro fuel
  induction fuel with
  | zero => intro n d h; simp [natDigits] at h
  | succ f ih =>
    intro n d h
    cases n with
    | zero => simp [natDigits] at h
    | succ m =>
      simp only [natDigits, List.mem_cons] at h
      rcases h with h | h
      · subst h; exact Nat.mod_lt _ (by norm_num)
      · exact ih _ _ h

theorem ofDigits10_natDigits : ∀ fuel n, n ≤ fuel → ofDigits10 (natDigits fuel n) = n := by
  intro fuel
  induction fuel with
  | zero => intro n h; interval_cases n; simp [natDigits, ofDigits10]
  | succ f ih =>
    intro n h
    cases n with
    | zero => simp [natDigits, ofDigits10]
    | succ m =>
      have hdiv : Nat.succ m / 10 ≤ f := by
        have h1 : Nat.succ m / 10 < Nat.succ m := Nat.div_lt_self (Nat.succ_pos m) (by norm_num)
        omega
      simp only [natDigits, ofDigits10, List.foldr_cons]
      have := ih (Nat.succ m / 10) hdiv
      simp only [ofDigits10] at this
      rw [this]
      exact Nat.mod_add_div _ _

theorem decDigits_append (ds : List Nat) (hds : ∀ d ∈ ds, d < 10) (rest : JSStr)
    (hhd : ∀ c ∈ rest.head?, c.isDigit = false) :
    decDigits (ds.map digitChar ++ rest) = (ds, rest) := by
  induction ds with
  | nil =>
    cases rest with
    | nil => simp [decDigits]
    | cons c r =>
      have hc := hhd c (by simp)
      simp [decDigits, hc]
  | cons d ds ih =>
    have hd : d < 10 := hds d (by simp)
    have hrec := ih (fun x hx => hds x (by simp [hx]))
    simp [decDigits, digitChar_isDigit d hd, hrec, digitChar_toNat d hd]

theorem decNat_encNat (n : Nat) (rest : JSStr) :
    decNat (encNat n ++ rest) = some (n, rest) := by
  by_cases h : n = 0
  · subst h
    have h0 : decDigits ([0].map digitChar ++ (';' :: rest)) = ([0], ';' :: rest) :=
      decDigits_append [0] (by simp) (';' :: rest) (by simp)
    simp only [encNat, if_true, List.append_assoc] at *
    simp only [decNat, List.cons_append, List.nil_append]
    have h0' : decDigits ('0' :: (';' :: rest)) = ([0], ';' :: rest) := by
      simpa [digitChar] using h0
    simp [h0', ofDigits10]
  · have hds := fun d hd => natDigits_lt_ten n n d hd
    have h1 : decDigits ((natDigits n n).map digitChar ++ (';' :: rest)) =
        (natDigits n n, ';' :: rest) :=
      decDigits_append _ hds (';' :: rest) (by simp)
    have hne : natDigits n n ≠ [] := by
      cases n with
      | zero => exact absurd rfl h
      | succ m => simp [natDigits]
    simp only [encNat, h, if_false, decNat, List.append_assoc, List.cons_append,
      List.nil_append]
    rw [h1]
    simp [hne, ofDigits10_natDigits n n le_rfl]

theorem decStr_encStr (s : JSStr) (rest : JSStr) :
    decStr (encStr s ++ rest) = some (s, rest) := by
  simp only [encStr, List.cons_append, decStr, List.append_assoc, decNat_encNat]
  simp [List.take_left, List.drop_left]

theorem decBool_encBool (b : Bool) (rest : JSStr) :
    decBool (encBool b ++ rest) = some (b, rest) := by
  cases b <;> simp [encBool, decBool]

theorem decOpt_encOpt {α : Type} {enc : α → JSStr} {dec : JSStr → Option (α × JSStr)}
    (hdec : ∀ a rest, dec (enc a ++ rest) = some (a, rest)) (o : Option α) (rest : JSStr) :
    decOpt dec (encOpt enc o ++ rest) = some (o, rest) := by
  cases o with
  | none => simp [encOpt, decOpt]
  | some a => simp [encOpt, decOpt, hdec]

theorem length_le_encListAux {α : Type} (enc : α → JSStr) (l : List α) :
    l.length ≤ (encListAux enc l).length := by
  induction l with
  | nil => simp [encListAux]
  | cons a as ih => simp [encListAux]; omega

theorem decListAux_encListAux {α : Type} {enc : α → JSStr} {dec : JSStr → Option (α × JSStr)}
    (hdec : ∀ a rest, dec (enc a ++ rest) = some (a, rest)) :
    ∀ (l : List α) (fuel : Nat), l.length ≤ fuel → ∀ (rest : JSStr),
      decListAux dec fuel (encListAux enc l ++ rest) = some (l, rest) := by
  intro l
  induction l with
  | nil => intro fuel _ rest; cases fuel <;> simp [encListAux, decListAux]
  | cons a as ih =>
    intro fuel hfuel rest
    cases fuel with
    | zero => simp at hfuel
    | succ f =>
      have has : as.length ≤ f := by simp at hfuel; omega
      simp [encListAux, decListAux, hdec, ih f has rest]

theorem decList_encList {α : Type} {enc : α → JSStr} {dec : JSStr → Option (α × JSStr)}
    (hdec : ∀ a rest, dec (enc a ++ rest) = some (a, rest)) (l : List α) (rest : JSStr) :
    decList dec (encList enc l ++ rest) = some (l, rest) := by
  have hlen : l.length ≤ (encListAux enc l ++ rest).length := by
    have := length_le_encListAux enc l
    simp only [List.length_append]
    omega
  simp only [encList, List.cons_append, decList]
  exact decListAux_encListAux hdec l _ hlen rest

theorem decPair_encPair {α β : Type} {encA : α → JSStr} {decA : JSStr → Option (α × JSStr)}
    {encB : β → JSStr} {decB : JSStr → Option (β × JSStr)}
    (hA : ∀ a rest, decA (encA a ++ rest) = some (a, rest))
    (hB : ∀ b rest, decB (encB b ++ rest) = some (b, rest)) (p : α × β) (rest : JSStr) :
    decPair decA decB (encPair encA encB p ++ rest) = some (p, rest) := by
  simp [encPair, decPair, List.append_assoc, hA, hB]

/-!
## Theorems: record and envelope round-trips
-/

set_option maxHeartbeats 1000000 in
theorem decStep_encStep (st : WorkflowStep) (rest : JSStr) :
    decStep (encStep st ++ rest) = some (st, rest) := by
  have hos := decOpt_encOpt decStr_encStr
  have holl := decOpt_encOpt (decList_encList decStr_encStr)
  simp only [encStep, decStep, List.cons_append, List.append_assoc, decStr_encStr, hos,
    holl, decNat_encNat, Option.bind_eq_bind, Option.some_bind]

set_option maxHeartbeats 1000000 in
theorem decWorkflow_encWorkflow (w : Workflow) (rest : JSStr) :
    decWorkflow (encWorkflow w ++ rest) = some (w, rest) := by
  have hsteps := decList_encList decStep_encStep
  simp only [encWorkflow, decWorkflow, List.cons_append, List.append_assoc, decStr_encStr,
    hsteps, decNat_encNat, Option.bind_eq_bind, Option.some_bind]

theorem decStored_encStored {α : Type} {enc : α → JSStr} {dec : JSStr → Option (α × JSStr)}
    (hdec : ∀ a rest, dec (enc a ++ rest) = some (a, rest))
    (version updatedAt : Nat) (d : α) (rest : JSStr) :
    decStored dec (encStored enc version updatedAt d ++ rest) =
      some (⟨version, updatedAt, d⟩, rest) := by
  simp [encStored, decStored, List.append_assoc, decNat_encNat, hdec]

theorem encStored_ne_nil {α : Type} (enc : α → JSStr) (version updatedAt : Nat) (d : α) :
    encStored enc version updatedAt d ≠ [] := by
  simp [encStored]

theorem isCompressed_encStored {α : Type} (enc : α → JSStr) (version updatedAt : Nat)
    (d : α) : CompressionService.isCompressed (encStored enc version updatedAt d) = false := by
  exact CompressionService.isCompressed_cons '{' _ (by decide)

theorem compress_ne_nil (s : JSStr) : CompressionService.compress s ≠ [] := by
  simp [CompressionService.compress, COMPRESSION_MARKER]

theorem autoCompress_ne_nil (threshold : Nat) (s : JSStr) (h : s ≠ []) :
    CompressionService.autoCompress threshold s ≠ [] := by
  unfold CompressionService.autoCompress
  split
  · exact compress_ne_nil s
  · exact h

/-!
## Theorems: the typed record store
-/

theorem store_set_fst {α : Type} (st : Store α) (now : Nat) (v : α) (σ : LocalStorage)
    (hval : st.validateData v = true) : (st.set now v σ).1 = true := by
  simp [Store.set, hval]

theorem store_set_invalid {α : Type} (st : Store α) (now : Nat) (v : α) (σ : LocalStorage)
    (hval : st.validateData v = false) : st.set now v σ = (false, σ) := by
  simp [Store.set, hval]

theorem store_set_state {α : Type} (st : Store α) (now : Nat) (v : α) (σ : LocalStorage)
    (hval : st.validateData v = true) :
    (st.set now v σ).2 = setItem σ st.storageKey
      (if st.useCompression then
        CompressionService.autoCompress st.compressionThreshold
          (encStored st.enc st.version now v)
      else encStored st.enc st.version now v) := by
  simp [Store.set, hval]

theorem store_get_set {α : Type} (st : Store α)
    (hdec : ∀ v rest, st.dec (st.enc v ++ rest) = some (v, rest))
    (now : Nat) (v : α) (σ : LocalStorage) (hval : st.validateData v = true) :
    st.get (st.set now v σ).2 = some v := by
  rw [store_set_state st now v σ hval]
  set serialized := encStored st.enc st.version now v with hser
  have hser_ne : serialized ≠ [] := encStored_ne_nil _ _ _ _
  have hser_nc : CompressionService.isCompressed serialized = false :=
    isCompressed_encStored _ _ _ _
  have hdecS : decStored st.dec (serialized ++ []) = some (⟨st.version, now, v⟩, []) :=
    decStored_encStored hdec st.version now v []
  rw [List.append_nil] at hdecS
  by_cases hc : st.useCompression
  · have hfin_ne : CompressionService.autoCompress st.compressionThreshold serialized ≠ [] :=
      autoCompress_ne_nil _ _ hser_ne
    have had : CompressionService.autoDecompress
        (CompressionService.autoCompress st.compressionThreshold serialized) = serialized :=
      CompressionService.autoDecompress_autoCompress _ _ hser_nc hser_ne
    simp [Store.get, setItem, hc, hfin_ne, had, hdecS]
  · have had : CompressionService.autoDecompress serialized = serialized :=
      CompressionService.autoDecompress_not_compressed _ hser_nc
    simp [Store.get, setItem, hc, hser_ne, had, hdecS]

theorem store_get_other {α : Type} (st : Store α) (now : Nat) (v : α) (σ : LocalStorage)
    (key : String) (hkey : key ≠ st.storageKey) :
    (st.set now v σ).2 key = σ key := by
  by_cases hval : st.validateData v
  · rw [store_set_state st now v σ hval]; simp [setItem, hkey]
  · rw [store_set_invalid st now v σ (by simpa using hval)]

/-!
## Claim theorems: compression codec and record store
-/

/-- C2 counterexample: the claimed round-trip fails at the empty string.  The
compressor emits a nonempty payload for `""`, and `decompress` treats the
legitimate empty decompression result as falsy (`result || data`), returning
the still-marked input instead of `""`. -/
theorem C2_compress_roundtrip_counterexample :
    CompressionService.decompress (CompressionService.compress []) ≠ [] := by decide

/-- C2 (amended): for every nonempty string `s`,
`decompress (compress s) = s` — in particular also when `s` itself begins
with the compression marker. -/
theorem C2_compress_roundtrip_nonempty (s : JSStr) (h : s ≠ []) :
    CompressionService.decompress (CompressionService.compress s) = s :=
  CompressionService.decompress_compress s h

/-- Witness for the amended C2 at a marker-prefixed input. -/
theorem C2_compress_roundtrip_nonempty_witness :
    COMPRESSION_MARKER ++ ['x'] ≠ [] ∧
      CompressionService.decompress
        (CompressionService.compress (COMPRESSION_MARKER ++ ['x'])) =
        COMPRESSION_MARKER ++ ['x'] :=
  ⟨by decide, C2_compress_roundtrip_nonempty (COMPRESSION_MARKER ++ ['x']) (by decide)⟩

/-- C6 counterexample: `autoDecompress` is not idempotent on a doubly
compressed string — each call strips one compression layer. -/
theorem C6_autoDecompress_idempotent_counterexample :
    CompressionService.autoDecompress (CompressionService.autoDecompress
        (CompressionService.compress (CompressionService.compress ['a']))) ≠
      CompressionService.autoDecompress
        (CompressionService.compress (CompressionService.compress ['a'])) := by decide

/-- C6 (amended): `autoDecompress` is idempotent on every string whose first
auto-decompression does not itself begin with the compression marker (the
doubly-compressed strings are exactly the exceptions). -/
theorem C6_autoDecompress_idempotent_unmarked (s : JSStr)
    (h : CompressionService.isCompressed (CompressionService.autoDecompress s) = false) :
    CompressionService.autoDecompress (CompressionService.autoDecompress s) =
      CompressionService.autoDecompress s :=
  CompressionService.autoDecompress_not_compressed _ h

/-- Witness for the amended C6. -/
theorem C6_autoDecompress_idempotent_unmarked_witness :
    CompressionService.isCompressed (CompressionService.autoDecompress ['a', 'b']) = false ∧
      CompressionService.autoDecompress (CompressionService.autoDecompress ['a', 'b']) =
        CompressionService.autoDecompress ['a', 'b'] :=
  ⟨by decide, C6_autoDecompress_idempotent_unmarked ['a', 'b'] (by decide)⟩

/-- C1: for every store whose payload serialization is lossless and every
value accepted by the validation hook, `set` succeeds and a subsequent `get`
returns the value unchanged — for every compression threshold, so in
particular also when the envelope is stored compressed. -/
theorem C1_store_set_get_roundtrip {α : Type} (st : Store α)
    (hdec : ∀ v rest, st.dec (st.enc v ++ rest) = some (v, rest))
    (now : Nat) (v : α) (σ : LocalStorage) (hval : st.validateData v = true) :
    (st.set now v σ).1 = true ∧ st.get (st.set now v σ).2 = some v :=
  ⟨store_set_fst st now v σ hval, store_get_set st hdec now v σ hval⟩

/-- Witness for C1 on the workflow store with compression threshold 0, so the
envelope is written in compressed form. -/
theorem C1_store_set_get_roundtrip_witness :
    tinyThresholdStore.validateData [sampleWorkflow] = true ∧
      (tinyThresholdStore.set 5 [sampleWorkflow] emptyStorage).1 = true ∧
      tinyThresholdStore.get (tinyThresholdStore.set 5 [sampleWorkflow] emptyStorage).2 =
        some [sampleWorkflow] :=
  ⟨by decide,
    C1_store_set_get_roundtrip tinyThresholdStore
      (fun v rest => decList_encList decWorkflow_encWorkflow v rest)
      5 [sampleWorkflow] emptyStorage (by decide)⟩

/-- C4: whenever the validation hook rejects the argument (the base hook
rejects exactly null/undefined), `set` returns `false` and leaves the whole
storage — in particular the raw string under the store's key, present or
absent — unchanged. -/
theorem C4_invalid_set_rejected {α : Type} (st : Store α) (now : Nat) (v : α)
    (σ : LocalStorage) (hval : st.validateData v = false) :
    st.set now v σ = (false, σ) ∧ (st.set now v σ).2 st.storageKey = σ st.storageKey := by
  have h := store_set_invalid st now v σ hval
  exact ⟨h, by rw [h]⟩

/-- Witness for C4: the base validation hook rejecting a null payload. -/
theorem C4_invalid_set_rejected_witness :
    testArrayStore.validateData none = false ∧
      testArrayStore.set 7 none emptyStorage = (false, emptyStorage) ∧
      (testArrayStore.set 7 none emptyStorage).2 testArrayStore.storageKey =
        emptyStorage testArrayStore.storageKey := by
  refine ⟨by decide, ?_⟩
  have h := C4_invalid_set_rejected testArrayStore 7 none emptyStorage (by decide)
  exact ⟨h.1, h.2⟩

/-!
## Theorems: WorkflowStorage
-/

theorem decWorkflowList_enc (l : List Workflow) (rest : JSStr) :
    decList decWorkflow (encList encWorkflow l ++ rest) = some (l, rest) :=
  decList_encList decWorkflow_encWorkflow l rest

theorem validateWorkflows_eq_true (ws : List Workflow) : validateWorkflows ws = true := by
  simp [validateWorkflows]

theorem workflowStore_get_set (now : Nat) (ws : List Workflow) (σ : LocalStorage) :
    workflowStore.get (workflowStore.set now ws σ).2 = some ws :=
  store_get_set workflowStore decWorkflowList_enc now ws σ (validateWorkflows_eq_true ws)

theorem workflowStore_set_fst (now : Nat) (ws : List Workflow) (σ : LocalStorage) :
    (workflowStore.set now ws σ).1 = true :=
  store_set_fst workflowStore now ws σ (validateWorkflows_eq_true ws)

theorem storedWorkflows_set (now : Nat) (ws : List Workflow) (σ : LocalStorage) :
    storedWorkflows (workflowStore.set now ws σ).2 = ws := by
  simp [storedWorkflows, workflowStore_get_set]

theorem getWorkflows_eq (σ : LocalStorage) :
    getWorkflows σ = (storedWorkflows σ).map decompressWorkflow := by
  cases h : workflowStore.get σ <;>
    simp [getWorkflows, storedWorkflows, h, decompressWorkflow]

theorem length_storedWorkflows_eq (σ : LocalStorage) :
    (storedWorkflows σ).length = (getWorkflows σ).length := by
  simp [getWorkflows_eq]

theorem saveWorkflow_found (σ : LocalStorage) (now : Nat) (w : Workflow) (i : Nat)
    (h : (getWorkflows σ).findIdx? (fun x => x.id == w.id) = some i) :
    saveWorkflow now w σ =
      workflowStore.set now
        ((getWorkflows σ).set i { compressWorkflow w with updatedAt := now }) σ := by
  simp [saveWorkflow, h, compressWorkflow]

theorem saveWorkflow_missing (σ : LocalStorage) (now : Nat) (w : Workflow)
    (h : (getWorkflows σ).findIdx? (fun x => x.id == w.id) = none) :
    saveWorkflow now w σ =
      workflowStore.set now
        (getWorkflows σ ++ [{ compressWorkflow w with createdAt := now, updatedAt := now }])
        σ := by
  simp [saveWorkflow, h, compressWorkflow]

theorem saveWorkflow_fst (now : Nat) (w : Workflow) (σ : LocalStorage) :
    (saveWorkflow now w σ).1 = true := by
  cases h : (getWorkflows σ).findIdx? (fun x => x.id == w.id) with
  | none => rw [saveWorkflow_missing σ now w h]; exact workflowStore_set_fst _ _ _
  | some i => rw [saveWorkflow_found σ now w i h]; exact workflowStore_set_fst _ _ _

theorem findIdx?_stored_eq (σ : LocalStorage) (p : Workflow → Bool)
    (hp : ∀ w, p (decompressWorkflow w) = p w) :
    (storedWorkflows σ).findIdx? p = (getWorkflows σ).findIdx? p := by
  rw [getWorkflows_eq σ, List.findIdx?_map]
  exact congrArg (fun g => List.findIdx? g (storedWorkflows σ)) (funext fun x => (hp x).symm)

theorem findIdx?_lt_length {α : Type} {p : α → Bool} {l : List α} {i : Nat}
    (h : l.findIdx? p = some i) : i < l.length := by
  obtain ⟨hlt, -⟩ := List.findIdx?_eq_some_iff_getElem.mp h
  exact hlt

theorem length_filter_keep_lt_iff (l : List Workflow) (id : JSStr) :
    ((l.filter fun w => w.id != id).length < l.length) ↔
      l.any (fun w => w.id == id) = true := by
  induction l with
  | nil => simp
  | cons a as ih =>
    simp only [bne] at ih ⊢
    by_cases h : a.id == id
    · simp [List.filter_cons, h, Nat.lt_succ_of_le (List.length_filter_le _ as)]
    · have hb : (a.id == id) = false := by simpa using h
      simp [List.filter_cons, hb, ih]

/-- C5: `saveWorkflow` looks up the collection by the saved workflow's id
(the lookup over the stored collection agrees with the one over the
decompressed view); when found at position `i`, the stored collection after
the call has the same length, position `i` holds the saved workflow stamped
with a fresh `updatedAt` (its own steps carrying the documented write-side
image compression), and every other position is unchanged; when not found,
the saved workflow is appended at the end with both timestamps stamped and
every previously existing position is unchanged. -/
theorem C5_saveWorkflow_spec (σ : LocalStorage) (now : Nat) (w : Workflow) :
    (saveWorkflow now w σ).1 = true ∧
    (storedWorkflows σ).findIdx? (fun x => x.id == w.id) =
      (getWorkflows σ).findIdx? (fun x => x.id == w.id) ∧
    (∀ i, (getWorkflows σ).findIdx? (fun x => x.id == w.id) = some i →
      storedWorkflows (saveWorkflow now w σ).2 =
        (getWorkflows σ).set i { compressWorkflow w with updatedAt := now } ∧
      (storedWorkflows (saveWorkflow now w σ).2)[i]? =
        some { compressWorkflow w with updatedAt := now } ∧
      (storedWorkflows (saveWorkflow now w σ).2).length = (getWorkflows σ).length ∧
      ∀ j, j ≠ i →
        (storedWorkflows (saveWorkflow now w σ).2)[j]? = (getWorkflows σ)[j]?) ∧
    ((getWorkflows σ).findIdx? (fun x => x.id == w.id) = none →
      storedWorkflows (saveWorkflow now w σ).2 =
        getWorkflows σ ++ [{ compressWorkflow w with createdAt := now, updatedAt := now }] ∧
      ∀ j, j < (getWorkflows σ).length →
        (storedWorkflows (saveWorkflow now w σ).2)[j]? = (getWorkflows σ)[j]?) := by
  refine ⟨saveWorkflow_fst now w σ, ?_, ?_, ?_⟩
  · exact findIdx?_stored_eq σ _ (fun u => rfl)
  · intro i hi
    have hlt : i < (getWorkflows σ).length := findIdx?_lt_length hi
    rw [saveWorkflow_found σ now w i hi, storedWorkflows_set]
    refine ⟨rfl, List.getElem?_set_self hlt, by simp, ?_⟩
    intro j hj
    exact List.getElem?_set_ne (Ne.symm hj)
  · intro hnone
    rw [saveWorkflow_missing σ now w hnone, storedWorkflows_set]
    exact ⟨rfl, fun j hj => List.getElem?_append_left hj⟩

/-- Witness for C5: updating the stored sample workflow in place at index 0. -/
theorem C5_saveWorkflow_spec_witness :
    (getWorkflows wfStateOne).findIdx? (fun x => x.id == sampleWorkflowV2.id) = some 0 ∧
      (storedWorkflows (saveWorkflow 9 sampleWorkflowV2 wfStateOne).2)[0]? =
        some { compressWorkflow sampleWorkflowV2 with updatedAt := 9 } :=
  ⟨by decide,
    (((C5_saveWorkflow_spec wfStateOne 9 sampleWorkflowV2).2.2.1) 0 (by decide)).2.1⟩

/-- C7: `deleteWorkflow id` returns true exactly when a workflow with that id
is present (the collection shrank); in that case the stored collection
afterwards is the previous collection with exactly the matching workflows
removed; otherwise the storage is left completely unchanged and the call
returns false. -/
theorem C7_deleteWorkflow_spec (σ : LocalStorage) (now : Nat) (id : JSStr) :
    ((deleteWorkflow now id σ).1 = (getWorkflows σ).any (fun w => w.id == id)) ∧
    ((getWorkflows σ).any (fun w => w.id == id) = true →
      storedWorkflows (deleteWorkflow now id σ).2 =
        (getWorkflows σ).filter (fun w => w.id != id)) ∧
    ((getWorkflows σ).any (fun w => w.id == id) = false →
      deleteWorkflow now id σ = (false, σ)) := by
  have hiff := length_filter_keep_lt_iff (getWorkflows σ) id
  by_cases hany : (getWorkflows σ).any (fun w => w.id == id) = true
  · have hlt := hiff.mpr hany
    have hdel : deleteWorkflow now id σ =
        workflowStore.set now ((getWorkflows σ).filter fun w => w.id != id) σ := by
      simp [deleteWorkflow, hlt]
    refine ⟨?_, fun _ => ?_, fun hfalse => ?_⟩
    · rw [hdel, hany]; exact workflowStore_set_fst _ _ _
    · rw [hdel, storedWorkflows_set]
    · rw [hany] at hfalse; cases hfalse
  · have hanyf : (getWorkflows σ).any (fun w => w.id == id) = false := by
      simpa using hany
    have hnlt : ¬ ((getWorkflows σ).filter fun w => w.id != id).length <
        (getWorkflows σ).length := by
      rw [hiff, hanyf]; simp
    have hdel : deleteWorkflow now id σ = (false, σ) := by
      simp [deleteWorkflow, hnlt]
    refine ⟨by rw [hdel, hanyf], fun htrue => ?_, fun _ => hdel⟩
    rw [hanyf] at htrue; cases htrue

/-- Witness for C7: deleting the stored sample workflow empties the
collection; deleting a missing id is a no-op returning false. -/
theorem C7_deleteWorkflow_spec_witness :
    (getWorkflows wfStateOne).any (fun w => w.id == sampleWorkflow.id) = true ∧
      storedWorkflows (deleteWorkflow 4 sampleWorkflow.id wfStateOne).2 =
        (getWorkflows wfStateOne).filter (fun w => w.id != sampleWorkflow.id) :=
  ⟨by decide, (C7_deleteWorkflow_spec wfStateOne 4 sampleWorkflow.id).2.1 (by decide)⟩

/-- C10 counterexample: the claim that after a successful `saveWorkflow` every
other stored workflow's `imageData` is unmarked fails.  A stored `imageData`
equal to the bare marker survives the read-decompress/write cycle still
marked, because stripping the marker leaves an empty compressed payload, on
which decompression fails and `decompress` returns the marked input. -/
theorem C10_saveWorkflow_decompressed_counterexample :
    (saveWorkflow 1 otherWorkflow markedState).1 = true ∧
      ((storedWorkflows (saveWorkflow 1 otherWorkflow markedState).2)[0]?).map
          (fun u => u.steps.map (fun st => st.imageData)) =
        some [some COMPRESSION_MARKER] ∧
      CompressionService.isCompressed COMPRESSION_MARKER = true := by decide

/-- C10 (amended): a successful `saveWorkflow w` rewrites the stored
collection through the decompressed read view, so every stored workflow other
than the one being saved ends up stored as the auto-decompression of its
previous stored form — it is never re-compressed, and it is unmarked exactly
when that decompression left no marker. -/
theorem C10_saveWorkflow_frame (σ : LocalStorage) (now : Nat) (w : Workflow) :
    (saveWorkflow now w σ).1 = true ∧
    ∀ j, j < (storedWorkflows σ).length →
      (getWorkflows σ).findIdx? (fun x => x.id == w.id) ≠ some j →
      (storedWorkflows (saveWorkflow now w σ).2)[j]? =
        ((storedWorkflows σ)[j]?).map decompressWorkflow := by
  refine ⟨saveWorkflow_fst now w σ, ?_⟩
  intro j hj hne
  have hmap : (getWorkflows σ)[j]? = ((storedWorkflows σ)[j]?).map decompressWorkflow := by
    rw [getWorkflows_eq σ]; exact List.getElem?_map _ _ _
  cases h : (getWorkflows σ).findIdx? (fun x => x.id == w.id) with
  | none =>
    rw [saveWorkflow_missing σ now w h, storedWorkflows_set]
    rw [← hmap]
    exact List.getElem?_append_left (by rwa [← length_storedWorkflows_eq])
  | some i =>
    have hij : i ≠ j := fun hEq => hne (hEq ▸ h)
    rw [saveWorkflow_found σ now w i h, storedWorkflows_set]
    rw [List.getElem?_set_ne hij]
    exact hmap

/-- Witness for the amended C10: after saving a new workflow next to the
marker-carrying one, position 0 holds the decompression of its previous
stored form. -/
theorem C10_saveWorkflow_frame_witness :
    0 < (storedWorkflows markedState).length ∧
      (getWorkflows markedState).findIdx?
          (fun x => x.id == otherWorkflow.id) ≠ some 0 ∧
      (storedWorkflows (saveWorkflow 1 otherWorkflow markedState).2)[0]? =
        ((storedWorkflows markedState)[0]?).map decompressWorkflow :=
  ⟨by decide, by decide,
    (C10_saveWorkflow_frame markedState 1 otherWorkflow).2 0 (by decide) (by decide)⟩

/-!
## Theorems: legacy migration
-/

theorem decList_cons_ne {α : Type} (dec : JSStr → Option (α × JSStr)) (c : Char) (r : JSStr)
    (h : c ≠ '[') : decList dec (c :: r) = none := by
  unfold decList
  split
  · rename_i heq
    injection heq with h1 _
    exact absurd h1 h
  · rfl

theorem decStored_cons_ne {α : Type} (dec : JSStr → Option (α × JSStr)) (c : Char)
    (r : JSStr) (h : c ≠ '{') : decStored dec (c :: r) = none := by
  unfold decStored
  split
  · rename_i heq
    injection heq with h1 _
    exact absurd h1 h
  · rfl

theorem legacy_key_eq_new_key : LEGACY_WORKFLOWS_KEY = workflowStore.storageKey := rfl

theorem setItem_legacy_lookup (σ : LocalStorage) (v : JSStr) :
    setItem σ workflowStore.storageKey v LEGACY_WORKFLOWS_KEY = some v := by
  rw [setItem, if_pos legacy_key_eq_new_key]

/-- After any successful write through the new workflow store, the legacy
read no longer sees a nonempty plain array under the shared key: the stored
string is now a versioned envelope (or its compressed form). -/
theorem getOldWorkflows_after_set (now : Nat) (ws : List Workflow) (σ : LocalStorage) :
    getOldWorkflows (workflowStore.set now ws σ).2 = none ∨
      getOldWorkflows (workflowStore.set now ws σ).2 = some [] := by
  have hstate := store_set_state workflowStore now ws σ (validateWorkflows_eq_true ws)
  rw [hstate]
  have huse : workflowStore.useCompression = true := rfl
  rw [huse, if_pos rfl]
  set ser := encStored workflowStore.enc workflowStore.version now ws with hserdef
  have hser_ne : ser ≠ [] := encStored_ne_nil _ _ _ _
  by_cases hth : workflowStore.compressionThreshold ≤ ser.length * 2
  · right
    have hfin : CompressionService.autoCompress workflowStore.compressionThreshold ser =
        CompressionService.compress ser := by
      rw [CompressionService.autoCompress, if_pos hth]
    rw [hfin]
    have hcons : CompressionService.compress ser =
        '_' :: (['_', 'C', 'O', 'M', 'P', 'R', 'E', 'S', 'S', 'E', 'D', '_', '_', ':'] ++
          lzCompressToUTF16 ser) := rfl
    simp only [getOldWorkflows, setItem_legacy_lookup]
    rw [if_neg (compress_ne_nil ser)]
    rw [hcons, decList_cons_ne _ _ _ (by decide), decStored_cons_ne _ _ _ (by decide)]
  · left
    have hfin : CompressionService.autoCompress workflowStore.compressionThreshold ser =
        ser := by
      rw [CompressionService.autoCompress, if_neg hth]
    rw [hfin]
    have hcons : ser = '{' :: (encNat workflowStore.version ++ encNat now ++
        workflowStore.enc ws ++ ['}']) := rfl
    have hstored : decStored (decList decWorkflow) ser =
        some (⟨workflowStore.version, now, ws⟩, []) := by
      have h1 := decStored_encStored decWorkflowList_enc workflowStore.version now ws []
      rw [List.append_nil] at h1
      exact h1
    simp only [getOldWorkflows, setItem_legacy_lookup]
    rw [if_neg hser_ne]
    rw [hcons, decList_cons_ne _ _ _ (by decide), ← hcons, hstored]

/-- A second migration attempt after any successful store write fails. -/
theorem migrate_after_set_false (t now : Nat) (ws : List Workflow) (σ : LocalStorage) :
    (migrateFromOldFormat t (workflowStore.set now ws σ).2).1 = false := by
  rcases getOldWorkflows_after_set now ws σ with h | h <;>
    simp [migrateFromOldFormat, h]

/-- C3 counterexample: with the legacy flat key seeded with one workflow, the
first migration succeeds but the second call returns false, not true — the
first migration overwrote the shared `wld_workflows` key with the versioned
envelope, which no longer parses as a plain array. -/
theorem C3_migration_counterexample :
    (migrateFromOldFormat 1 (setItem emptyStorage LEGACY_WORKFLOWS_KEY
        (encList encWorkflow [sampleWorkflow]))).1 = true ∧
      (migrateFromOldFormat 2 (migrateFromOldFormat 1 (setItem emptyStorage
          LEGACY_WORKFLOWS_KEY (encList encWorkflow [sampleWorkflow]))).2).1 = false := by
  decide

/-- C3 (amended): seeding the legacy flat key with one workflow, the first
`migrateFromOldFormat` returns true and `getWorkflows` afterwards contains a
workflow with the same id and title; but a second call returns false (not
true): the legacy key and the new store's key are the same string, so the
first migration replaced the flat array with the versioned envelope and the
legacy read no longer yields a nonempty array. -/
theorem C3_migration_spec (w : Workflow) (t1 t2 : Nat) :
    (migrateFromOldFormat t1 (setItem emptyStorage LEGACY_WORKFLOWS_KEY
        (encList encWorkflow [w]))).1 = true ∧
      (∃ u ∈ getWorkflows (migrateFromOldFormat t1 (setItem emptyStorage
          LEGACY_WORKFLOWS_KEY (encList encWorkflow [w]))).2,
        u.id = w.id ∧ u.title = w.title) ∧
      (migrateFromOldFormat t2 (migrateFromOldFormat t1 (setItem emptyStorage
          LEGACY_WORKFLOWS_KEY (encList encWorkflow [w]))).2).1 = false := by
  have hraw : setItem emptyStorage LEGACY_WORKFLOWS_KEY (encList encWorkflow [w])
      LEGACY_WORKFLOWS_KEY = some (encList encWorkflow [w]) := by
    rw [setItem, if_pos rfl]
  have hne : encList encWorkflow [w] ≠ [] := by simp [encList]
  have hdec : decList decWorkflow (encList encWorkflow [w]) = some ([w], []) := by
    have h1 := decWorkflowList_enc [w] []
    rw [List.append_nil] at h1
    exact h1
  have hold : getOldWorkflows (setItem emptyStorage LEGACY_WORKFLOWS_KEY
      (encList encWorkflow [w])) = some [w] := by
    simp only [getOldWorkflows, hraw]
    rw [if_neg hne, hdec]
  have hmig : migrateFromOldFormat t1 (setItem emptyStorage LEGACY_WORKFLOWS_KEY
      (encList encWorkflow [w])) = workflowStore.set t1 [compressWorkflow w]
      (setItem emptyStorage LEGACY_WORKFLOWS_KEY (encList encWorkflow [w])) := by
    simp [migrateFromOldFormat, hold, compressWorkflow]
  refine ⟨?_, ?_, ?_⟩
  · rw [hmig]; exact workflowStore_set_fst _ _ _
  · rw [hmig]
    refine ⟨decompressWorkflow (compressWorkflow w), ?_, rfl, rfl⟩
    rw [getWorkflows_eq, storedWorkflows_set]
    simp
  · rw [hmig]; exact migrate_after_set_false t2 t1 [compressWorkflow w] _

/-!
## Theorems: annotation statistics
-/

/-- C8: `getAnnotationStats` returns `completeness` equal to
`100 × (withPurpose + withOutcome + withCategory + withRelationships) / (4 × total)`
(as exact rational arithmetic, where the empty case reads `0/0 = 0`); the four
counts are the numbers of annotated steps with a truthy purpose, outcome and
category and with a nonempty relationship list; and a missing workflow yields
the all-zero record. -/
theorem C8_annotation_stats (σ : LocalStorage) (workflowId : JSStr) :
    (getAnnotationStats workflowId σ).completeness =
      100 * (((getAnnotationStats workflowId σ).withPurpose : ℚ) +
        ((getAnnotationStats workflowId σ).withOutcome : ℚ) +
        ((getAnnotationStats workflowId σ).withCategory : ℚ) +
        ((getAnnotationStats workflowId σ).withRelationships : ℚ)) /
        (4 * ((getAnnotationStats workflowId σ).total : ℚ)) ∧
    (getWorkflowAnnotations workflowId σ = none →
      getAnnotationStats workflowId σ = ⟨0, 0, 0, 0, 0, 0⟩) ∧
    (∀ m, getWorkflowAnnotations workflowId σ = some m →
      (getAnnotationStats workflowId σ).total = m.length ∧
      (getAnnotationStats workflowId σ).withPurpose =
        ((m.map Prod.snd).filter fun st => truthyStr st.purpose).length ∧
      (getAnnotationStats workflowId σ).withOutcome =
        ((m.map Prod.snd).filter fun st => truthyStr st.expectedOutcome).length ∧
      (getAnnotationStats workflowId σ).withCategory =
        ((m.map Prod.snd).filter fun st => truthyStr st.category).length ∧
      (getAnnotationStats workflowId σ).withRelationships =
        ((m.map Prod.snd).filter hasRelationships).length) := by
  refine ⟨?_, ?_, ?_⟩
  · cases h : getWorkflowAnnotations workflowId σ with
    | none => simp [getAnnotationStats, h]
    | some m =>
      by_cases hm : (m.map Prod.snd).length = 0
      · simp [getAnnotationStats, h, hm]
      · simp only [getAnnotationStats, h, if_neg hm]
        have ht : ((m.map Prod.snd).length : ℚ) ≠ 0 := Nat.cast_ne_zero.mpr hm
        push_cast
        field_simp
        ring
  · intro h
    simp [getAnnotationStats, h]
  · intro m h
    by_cases hm : (m.map Prod.snd).length = 0
    · have hsteps : m.map Prod.snd = [] := List.length_eq_zero.mp hm
      have hlen : m.length = 0 := by
        have := List.length_map m Prod.snd
        omega
      simp [getAnnotationStats, h, hm, hsteps, hlen]
    · have hm2 : m ≠ [] := by
        intro he
        subst he
        simp at hm
      simp [getAnnotationStats, h, hm2]

set_option maxRecDepth 10000 in
/-- Witness for C8: the four-step scenario (2 purposes, 0 outcomes, 1
category, 1 relationship) gives completeness 25. -/
theorem C8_annotation_stats_witness :
    getWorkflowAnnotations ['w', '1'] annotationState = some annotationSample ∧
      (getAnnotationStats ['w', '1'] annotationState).total = annotationSample.length ∧
      (getAnnotationStats ['w', '1'] annotationState).completeness = 25 := by
  refine ⟨by decide, ?_, ?_⟩
  · exact ((C8_annotation_stats annotationState ['w', '1']).2.2 annotationSample
      (by decide)).1
  · have h1 := (C8_annotation_stats annotationState ['w', '1']).1
    have hp : (getAnnotationStats ['w', '1'] annotationState).withPurpose = 2 := by decide
    have ho : (getAnnotationStats ['w', '1'] annotationState).withOutcome = 0 := by decide
    have hc : (getAnnotationStats ['w', '1'] annotationState).withCategory = 1 := by decide
    have hr : (getAnnotationStats ['w', '1'] annotationState).withRelationships = 1 := by
      decide
    have ht : (getAnnotationStats ['w', '1'] annotationState).total = 4 := by decide
    rw [h1, hp, ho, hc, hr, ht]
    norm_num

/-!
## Theorems: preferences
-/

theorem decTheme_encTheme (t : ThemePreferences) (rest : JSStr) :
    decTheme (encTheme t ++ rest) = some (t, rest) := by
  simp only [encTheme, decTheme, List.append_assoc, decBool_encBool, decStr_encStr,
    Option.bind_eq_bind, Option.some_bind]

theorem decEditor_encEditor (e : EditorPreferences) (rest : JSStr) :
    decEditor (encEditor e ++ rest) = some (e, rest) := by
  simp only [encEditor, decEditor, List.append_assoc, decBool_encBool, decStr_encStr,
    decNat_encNat, Option.bind_eq_bind, Option.some_bind]

theorem decExportPrefs_encExportPrefs (e : ExportPreferences) (rest : JSStr) :
    decExportPrefs (encExportPrefs e ++ rest) = some (e, rest) := by
  simp only [encExportPrefs, decExportPrefs, List.append_assoc, decBool_encBool,
    decStr_encStr, Option.bind_eq_bind, Option.some_bind]

set_option maxHeartbeats 1000000 in
theorem decPreferences_encPreferences (p : AppPreferences) (rest : JSStr) :
    decPreferences (encPreferences p ++ rest) = some (p, rest) := by
  simp only [encPreferences, decPreferences, List.cons_append, List.append_assoc,
    decTheme_encTheme, decEditor_encEditor, decExportPrefs_encExportPrefs,
    decStr_encStr, decNat_encNat, decList_encList decStr_encStr,
    Option.bind_eq_bind, Option.some_bind]

theorem preferencesStore_get_set (now : Nat) (p : AppPreferences) (σ : LocalStorage) :
    preferencesStore.get (preferencesStore.set now p σ).2 = some p :=
  store_get_set preferencesStore (fun v rest => decPreferences_encPreferences v rest)
    now p σ rfl

theorem recent_trunc_eq (x : JSStr) (l : List JSStr) :
    (if (x :: l).length > 10 then (x :: l).take 10 else (x :: l)) = x :: l.take 9 := by
  by_cases h : (x :: l).length > 10
  · rw [if_pos h]
    rfl
  · rw [if_neg h]
    have hl : l.length ≤ 9 := by
      simp at h
      omega
    rw [List.take_of_length_le hl]

/-- C9: a successful `addRecentWorkflow id` leaves the stored recent list
equal to `id` followed by the previous entries other than `id`, cut to nine;
hence `id` is first, no earlier occurrence of `id` survives, the remaining
entries keep their relative order (a sublist of the prior list), and the
length is at most 10. -/
theorem C9_addRecentWorkflow_spec (σ : LocalStorage) (now now2 : Nat)
    (workflowId : JSStr) :
    (addRecentWorkflow now workflowId σ).1 = true ∧
    (getPreferences now2 (addRecentWorkflow now workflowId σ).2).recentWorkflows =
      workflowId :: (((getPreferences now σ).recentWorkflows.filter
        fun id => id != workflowId).take 9) ∧
    ((getPreferences now2 (addRecentWorkflow now workflowId σ).2).recentWorkflows).head? =
      some workflowId ∧
    workflowId ∉
      ((getPreferences now2 (addRecentWorkflow now workflowId σ).2).recentWorkflows).tail ∧
    List.Sublist
      ((getPreferences now2 (addRecentWorkflow now workflowId σ).2).recentWorkflows).tail
      (getPreferences now σ).recentWorkflows ∧
    ((getPreferences now2 (addRecentWorkflow now workflowId σ).2).recentWorkflows).length ≤
      10 := by
  have haddeq : addRecentWorkflow now workflowId σ =
      preferencesStore.set now
        { getPreferences now σ with
          recentWorkflows := workflowId :: (((getPreferences now σ).recentWorkflows.filter
            fun id => id != workflowId).take 9),
          lastUpdated := now } σ := by
    simp only [addRecentWorkflow]
    rw [recent_trunc_eq]
  have hget : preferencesStore.get (addRecentWorkflow now workflowId σ).2 =
      some { getPreferences now σ with
        recentWorkflows := workflowId :: (((getPreferences now σ).recentWorkflows.filter
          fun id => id != workflowId).take 9),
        lastUpdated := now } := by
    rw [haddeq]
    exact preferencesStore_get_set now _ σ
  have hrw : (getPreferences now2 (addRecentWorkflow now workflowId σ).2).recentWorkflows =
      workflowId :: (((getPreferences now σ).recentWorkflows.filter
        fun id => id != workflowId).take 9) := by
    simp only [getPreferences, hget]
  refine ⟨?_, hrw, ?_, ?_, ?_, ?_⟩
  · rw [haddeq]
    exact store_set_fst _ _ _ _ rfl
  · simp only [hrw, List.head?_cons]
  · rw [hrw, List.tail_cons]
    intro hmem
    have h1 := List.mem_of_mem_take hmem
    have h2 := (List.mem_filter.mp h1).2
    simp at h2
  · rw [hrw, List.tail_cons]
    exact (List.take_sublist 9 _).trans (List.filter_sublist _)
  · rw [hrw]
    have := List.length_take 9 (((getPreferences now σ).recentWorkflows.filter
      fun id => id != workflowId))
    simp only [List.length_cons, this]
    omega

/-- Witness for C9: adding an already-present id to a two-element recent list
moves it to the front without duplication. -/
theorem C9_addRecentWorkflow_spec_witness :
    (getPreferences 5 (addRecentWorkflow 3 ['b'] prefsState).2).recentWorkflows =
      ['b'] :: (((getPreferences 3 prefsState).recentWorkflows.filter
        fun id => id != ['b']).take 9) ∧
    (getPreferences 5 (addRecentWorkflow 3 ['b'] prefsState).2).recentWorkflows =
      [['b'], ['a']] :=
  ⟨(C9_addRecentWorkflow_spec prefsState 3 5 ['b']).2.1, by decide⟩
